import Mathlib

/-!
Verification of the seiken-fx Result library (src/result.ts, src/array.ts,
src/object.ts) as a shallow embedding in Lean 4.

`Result E A` embeds the two-variant `Success`/`Failure` sum.  Methods that in
TypeScript take void callbacks for their side effects are instrumented: they
additionally return the list of arguments the callback was invoked on (the
list is the invocation trace; an empty list means the callback was never
called).  JavaScript object identity, where a claim depends on it, is made
explicit via a `refId : Nat` field standing for the object's reference.
-/

namespace SeikenFx

/-- The Result sum type from src/result.ts: `Success` holds `value : A`,
`Failure` holds `error : E`. -/
inductive Result (E A : Type) where
  | success (value : A)
  | failure (error : E)
deriving Repr, DecidableEq

namespace Result

variable {E A B : Type}

/-- Embeds `isSuccess`: `Success.isSuccess` returns true, `Failure.isSuccess` returns false. -/
def isSuccess : Result E A → Bool
  | .success _ => true
  | .failure _ => false

/-- Embeds `isFailure`: `Success.isFailure` returns false, `Failure.isFailure` returns true. -/
def isFailure : Result E A → Bool
  | .success _ => false
  | .failure _ => true

/-- Embeds `flatMap` from src/result.ts: on Success `return f(this.value)` (the
Result produced by `f` is returned directly); on Failure `return this`. -/
def flatMap (r : Result E A) (f : A → Result E B) : Result E B :=
  match r with
  | .success v => f v
  | .failure e => .failure e

end Result

/-! ### Object-identity model for `Failure.map` (src/result.ts line 286-288)

The TypeScript `Failure.map(_f)` body is `return this`: it ignores `_f`
entirely and returns the receiver object itself.  To talk about reference
equality we model a Failure object as its reference id together with its
stored error; `mapF` returns the receiver unchanged paired with the number
of times `_f` was invoked (zero: `_f` never appears in the body). -/

/-- A JavaScript `Failure` object: `refId` is its reference identity,
`error` its stored error. -/
structure FailureObj (E : Type) where
  refId : Nat
  error : E
deriving Repr, DecidableEq

/-- Embeds `Failure.map` from src/result.ts: `return this` — the receiver itself,
with `_f` invoked zero times (second component counts invocations of `_f`). -/
def FailureObj.mapF {E A B : Type} (self : FailureObj E) (_f : A → B) :
    FailureObj E × Nat :=
  (self, 0)

/-! ### Conditional chain (src/result.ts, `ConditionalChain`, `if`, `else`)

The void callbacks of `.then`/`.else` are instrumented as invocation
traces: `thenRun` returns the list of values the callback was invoked on,
`elseRun` returns the list of success values and the list of errors the
callback was invoked on. -/

/-- Embeds `ConditionalChain`: holds the original Result and the boolean condition. -/
structure ConditionalChain (E A : Type) where
  result : Result E A
  condition : Bool
deriving Repr, DecidableEq

/-- Embeds `if`: `Success.if(p)` builds `ConditionalChain(this, p(value))` (predicate
invoked on the value); `Failure.if(_p)` builds `ConditionalChain(this, false)`
without invoking the predicate.  The second component is the list of
arguments the predicate was invoked on. -/
def Result.ifChain {E A : Type} (r : Result E A) (p : A → Bool) :
    ConditionalChain E A × List A :=
  match r with
  | .success v => (⟨.success v, p v⟩, [v])
  | .failure e => (⟨.failure e, false⟩, [])

/-- Embeds `ConditionalChain.then(cb)`: invokes `cb(value)` iff the condition is
true and the Result is a Success; returns the same chain.  The second
component is the list of arguments `cb` was invoked on. -/
def ConditionalChain.thenRun {E A : Type} (c : ConditionalChain E A) :
    ConditionalChain E A × List A :=
  match c.result, c.condition with
  | .success v, true => (c, [v])
  | _, _ => (c, [])

/-- Embeds `ConditionalChain.else(cb)`: for a Success with condition false invokes
`cb(value)`; for a Failure always invokes `cb(error)`; returns
`this.result` (the original Result).  The trace components are the success
values and the errors `cb` was invoked on. -/
def ConditionalChain.elseRun {E A : Type} (c : ConditionalChain E A) :
    Result E A × List A × List E :=
  match c.result with
  | .success v => if c.condition then (c.result, [], []) else (c.result, [v], [])
  | .failure e => (c.result, [], [e])

/-! ### `all` (src/result.ts lines 460-473) -/

/-- Loop body of `all`: walk the Results, returning the first Failure as-is,
otherwise pushing each Success value onto `values`. -/
def allGo {E A : Type} : List (Result E A) → List A → Result E (List A)
  | [], values => .success values
  | r :: rest, values =>
    match r with
    | .failure e => .failure e
    | .success v => allGo rest (values ++ [v])

/-- Embeds `all(results)` from src/result.ts. -/
def all {E A : Type} (results : List (Result E A)) : Result E (List A) :=
  allGo results []

/-! ### Array `map` (src/array.ts lines 4-18)

The source accumulates the whole `Result` objects in `results` and at the
end projects `(r as any).value` off each.  `getValueD` embeds that
projection: on a Success it is the stored value; on a Failure the source
expression would be JavaScript `undefined`, which we stand in for with
`default`.  `mapGo` is instrumented with the list of elements `fn` was
invoked on, in invocation order. -/

/-- Embeds the projection `(r as any).value`: the value of a Success; `default` stands for the
`undefined` a JavaScript property read off a Failure would produce. -/
def getValueD {E A : Type} [Inhabited A] : Result E A → A
  | .success v => v
  | .failure _ => default

/-- Loop of array `map`: apply `fn` to each element in order; return the
first Failure as the overall Result; otherwise push the Success onto the
accumulator and at the end map `.value` over it.  The second component is
the list of elements `fn` was invoked on. -/
def mapGo {E A B : Type} [Inhabited B] (fn : A → Result E B) :
    List A → List (Result E B) → Result E (List B) × List A
  | [], results => (.success (results.map getValueD), [])
  | item :: rest, results =>
    match fn item with
    | .failure e => (.failure e, [item])
    | .success v =>
      let r := mapGo fn rest (results ++ [.success v])
      (r.1, item :: r.2)

/-- Array `map(fn)(arr)` from src/array.ts, paired with the invocation
trace of `fn`. -/
def mapTr {E A B : Type} [Inhabited B] (fn : A → Result E B) (arr : List A) :
    Result E (List B) × List A :=
  mapGo fn arr []

/-- Array `map(fn)(arr)` from src/array.ts (result only). -/
def arrayMap {E A B : Type} [Inhabited B] (fn : A → Result E B) (arr : List A) :
    Result E (List B) :=
  (mapTr fn arr).1

/-! ### JavaScript values

A first-order model of the JavaScript values the object operators traverse.
Functions are opaque and identified by a reference id.  Objects are ordered
own-enumerable field lists; `jsInsert` follows JavaScript assignment
semantics (overwrite in place if the key exists, append otherwise). -/

/-- A JavaScript value. -/
inductive JSVal where
  | vUndefined
  | vNull
  | vBool (b : Bool)
  | vNum (n : Int)
  | vStr (s : String)
  | vFunc (ref : Nat)
  | vArr (elems : List JSVal)
  | vObj (fields : List (String × JSVal))
deriving Repr

/-- Test `value === undefined`. -/
def JSVal.isUndef : JSVal → Bool
  | .vUndefined => true
  | _ => false

/-- Test `value === null`. -/
def JSVal.isNull : JSVal → Bool
  | .vNull => true
  | _ => false

/-- Embeds `key in obj` for an ordered field list. -/
def hasKey (fields : List (String × JSVal)) (k : String) : Bool :=
  fields.any (fun p => p.1 == k)

/-- Embeds the property read `obj[key]` for an ordered field list: the stored value, or `undefined`
when the key is absent. -/
def getKey (fields : List (String × JSVal)) (k : String) : JSVal :=
  match fields.find? (fun p => p.1 == k) with
  | some p => p.2
  | none => .vUndefined

/-- Embeds the assignment `obj[key] = v` on an ordered field list:
overwrites in place when the key exists, appends otherwise. -/
def jsInsert (fields : List (String × JSVal)) (k : String) (v : JSVal) :
    List (String × JSVal) :=
  if hasKey fields k then
    fields.map (fun p => if p.1 == k then (k, v) else p)
  else
    fields ++ [(k, v)]

/-- Embeds `segment in current` for a traversal value: own-key membership
on objects; on arrays the own properties are exactly the canonical numeric
indices in range and "length".  Prototype-chain properties are elided
throughout the value model.  On a primitive receiver JavaScript `in` does
not return false — it throws a TypeError — so the model value `false`
there is a don't-care: every theorem that asserts program behavior of this
test carries an `objPathSteps` hypothesis confining receivers to plain
objects (or null/undefined, where the source fails before evaluating
`in`). -/
def segMem (seg : String) (v : JSVal) : Bool :=
  match v with
  | .vObj fields => hasKey fields seg
  | .vArr elems =>
    seg == "length"
      || (match seg.toNat? with
          | some i => decide (toString i = seg) && decide (i < elems.length)
          | none => false)
  | _ => false

/-- Embeds the property read `current[segment]`: own field on objects;
canonical index or "length" on arrays; `undefined` otherwise (property
reads on primitive receivers yield `undefined` in JavaScript, modulo the
elided boxed/prototype properties). -/
def segGet (seg : String) (v : JSVal) : JSVal :=
  match v with
  | .vObj fields => getKey fields seg
  | .vArr elems =>
    if seg == "length" then .vNum (Int.ofNat elems.length)
    else
      match seg.toNat? with
      | some i =>
        if toString i = seg then elems.getD i .vUndefined else .vUndefined
      | none => .vUndefined
  | _ => .vUndefined

/-! ### Object operators (src/object.ts) -/

/-- Embeds `prop(key, onMissing)(obj)` from src/object.ts lines 9-16:
`if (!(key in obj) || obj[key] === undefined) failure(onMissing())` else
`success(obj[key])`. -/
def prop {E : Type} (key : String) (onMissing : Unit → E)
    (obj : List (String × JSVal)) : Result E JSVal :=
  if !(hasKey obj key) || (getKey obj key).isUndef then
    .failure (onMissing ())
  else
    .success (getKey obj key)

/-- Loop of `pick`: for each requested key, fail with `onMissing(key)` if
`!(key in obj)`, otherwise assign `result[key] = obj[key]`. -/
def pickGo {E : Type} (onMissing : String → E) (obj : List (String × JSVal)) :
    List String → List (String × JSVal) → Result E (List (String × JSVal))
  | [], acc => .success acc
  | k :: ks, acc =>
    if hasKey obj k then
      pickGo onMissing obj ks (jsInsert acc k (getKey obj k))
    else
      .failure (onMissing k)

/-- Embeds `pick(keys, onMissing)(obj)` from src/object.ts lines 25-38.  Note the
source checks only `!(key in obj)`: a present key whose value is
`undefined` is copied, not rejected. -/
def pick {E : Type} (keys : List String) (onMissing : String → E)
    (obj : List (String × JSVal)) : Result E (List (String × JSVal)) :=
  pickGo onMissing obj keys []

/-- Loop of `getPath`: fail with `onMissing(path.join('.'))` when the
current value is null, undefined, or lacks the segment; otherwise step into
`current[segment]`.  An exhausted path yields `success(current)`. -/
def getPathGo {E : Type} (path : List String) (onMissing : String → E) :
    JSVal → List String → Result E JSVal
  | current, [] => .success current
  | current, seg :: rest =>
    if current.isNull || current.isUndef || !(segMem seg current) then
      .failure (onMissing (String.intercalate "." path))
    else
      getPathGo path onMissing (segGet seg current) rest

/-- Embeds `getPath(path, onMissing)(obj)` from src/object.ts lines 63-76. -/
def getPath {E : Type} (path : List String) (onMissing : String → E)
    (obj : JSVal) : Result E JSVal :=
  getPathGo path onMissing obj path

/-! Specification-side descriptions of the object operators, written from
the amended claim's words, to be compared with the code embeddings above. -/

/-- Spec side: the path traversal misses iff, walking the path, some
current value is null or undefined or lacks the next segment. -/
def pathMissing : List String → JSVal → Bool
  | [], _ => false
  | seg :: rest, v =>
    if v.isNull || v.isUndef || !(segMem seg v) then true
    else pathMissing rest (segGet seg v)

/-- Spec side: the value reached by walking the whole path. -/
def walkPath : List String → JSVal → JSVal
  | [], v => v
  | seg :: rest, v => walkPath rest (segGet seg v)

/-- Guard for the getPath characterization: true when the traversal only
ever evaluates the membership test `segment in current` on a plain object
(where the embedded test is the own-key test, exact up to prototype
elision) or on null / undefined (where the source fails before evaluating
`in`).  Primitive receivers are excluded because the real `in` throws a
TypeError there, and array receivers because their own-property structure
("length", canonical indices, prototype methods) is beyond what this
claim's characterization should range over.  Once the traversal stops —
missing key, or null/undefined — later values are irrelevant and the guard
holds. -/
def objPathSteps : List String → JSVal → Bool
  | [], _ => true
  | seg :: rest, v =>
    match v with
    | .vNull => true
    | .vUndefined => true
    | .vObj fields =>
      if hasKey fields seg then objPathSteps rest (getKey fields seg)
      else true
    | _ => false

/-! ### Pattern matching (src/result.ts, `Success.match` / `Failure.match`)

The four tuple shapes of the `Pattern` union are embedded as the four
constructors below (the runtime type guards `isFailurePattern`,
`isDestructuringPattern`, `isGuardPattern`, `isBasicSuccessPattern`
discriminate exactly these shapes).  Success values are `JSVal`s so that
destructuring (`value[key] !== expectedValue`) is expressible.  A thrown
`new Error(msg)` is embedded as `Except.error msg`. -/

/-- JavaScript strict equality `===` on the values destructuring compares.
Primitives compare structurally; functions compare by reference id; object
and array literals occurring inside a pattern are fresh references, never
`===`-equal to anything. -/
def jsStrictEq : JSVal → JSVal → Bool
  | .vUndefined, .vUndefined => true
  | .vNull, .vNull => true
  | .vBool a, .vBool b => a == b
  | .vNum a, .vNum b => a == b
  | .vStr a, .vStr b => a == b
  | .vFunc a, .vFunc b => a == b
  | _, _ => false

/-- A `.match()` pattern: one of the four tuple shapes of the `Pattern`
union in src/result.ts. -/
inductive Pattern (E R : Type) where
  | basicSuccess (handler : JSVal → R)
  | guardPat (g : JSVal → Bool) (handler : JSVal → R)
  | destructurePat (fields : List (String × JSVal)) (handler : JSVal → R)
  | failurePat (handler : E → R)

/-- Embeds `matchesDestructuring` from src/result.ts lines 205-215: every entry of
the destructuring object must be `===`-equal to the corresponding property
of the value. -/
def matchesDestructuring (destructure : List (String × JSVal)) (value : JSVal) :
    Bool :=
  destructure.all (fun p => jsStrictEq (segGet p.1 value) p.2)

/-- Embeds `Success.match(patterns)` from src/result.ts lines 166-198: iterate in
array order, skip failure patterns, apply the first destructuring pattern
that matches / guard pattern whose guard is truthy / basic pattern; if none
applies, throw `"No matching pattern found"`. -/
def successMatch {E R : Type} (value : JSVal) :
    List (Pattern E R) → Except String R
  | [] => .error "No matching pattern found"
  | .failurePat _ :: rest => successMatch value rest
  | .destructurePat d h :: rest =>
    if matchesDestructuring d value then .ok (h value)
    else successMatch value rest
  | .guardPat g h :: rest =>
    if g value then .ok (h value) else successMatch value rest
  | .basicSuccess h :: _ => .ok (h value)

/-- Embeds `Failure.match(patterns)` from src/result.ts lines 377-388: the first
`[failure, handler]` tuple receives the error; every other shape is
skipped; if none is found, throw `"No matching failure pattern found"`. -/
def failureMatch {E R : Type} (err : E) :
    List (Pattern E R) → Except String R
  | [] => .error "No matching failure pattern found"
  | .failurePat h :: _ => .ok (h err)
  | _ :: rest => failureMatch err rest

/-- Spec side: whether a pattern is applicable to a Success holding
`value` (failure tuples never; destructuring iff shallow `===` match;
guard iff truthy; basic always). -/
def appliesToSuccess {E R : Type} (value : JSVal) : Pattern E R → Bool
  | .basicSuccess _ => true
  | .guardPat g _ => g value
  | .destructurePat d _ => matchesDestructuring d value
  | .failurePat _ => false

/-- Spec side: whether a pattern is a `[failure, handler]` tuple. -/
def isFailurePat {E R : Type} : Pattern E R → Bool
  | .failurePat _ => true
  | _ => false

/-- Spec side: the handler result of an applicable pattern on a Success
value (failure tuples carry no Success handler). -/
def applyToSuccess {E R : Type} (value : JSVal) : Pattern E R → Option R
  | .basicSuccess h => some (h value)
  | .guardPat _ h => some (h value)
  | .destructurePat _ h => some (h value)
  | .failurePat _ => none

/-! ### `clone` (src/object.ts lines 271-316)

`cloneRecursive(value, currentDepth)` fails with
`onDepthExceeded(currentDepth)` as soon as `currentDepth > maxDepth`;
otherwise primitives (null and everything of non-object type, functions
included — both branches of the source's function test return the value
as-is) are returned unchanged, and arrays/objects are rebuilt element by
element at `currentDepth + 1`, propagating the first Failure. -/

/-- Embeds `CloneOptions` from src/object.ts: `maxDepth` defaults to 10. -/
structure CloneOptions where
  maxDepth : Option Nat := none
  cloneFunctions : Bool := false
deriving Repr, DecidableEq

mutual

/-- Embeds `cloneRecursive` from src/object.ts lines 276-313. -/
def cloneRecursive {E : Type} (maxDepth : Nat) (onDepthExceeded : Nat → E) :
    JSVal → Nat → Result E JSVal
  | value, currentDepth =>
    if currentDepth > maxDepth then .failure (onDepthExceeded currentDepth)
    else
      match value with
      | .vArr elems =>
        match cloneElems maxDepth onDepthExceeded elems (currentDepth + 1) with
        | .failure e => .failure e
        | .success cloned => .success (.vArr cloned)
      | .vObj fields =>
        match cloneObjFields maxDepth onDepthExceeded fields (currentDepth + 1) with
        | .failure e => .failure e
        | .success cloned => .success (.vObj cloned)
      | v => .success v

/-- Array branch of `cloneRecursive`: clone each element at the child
depth, failing fast. -/
def cloneElems {E : Type} (maxDepth : Nat) (onDepthExceeded : Nat → E) :
    List JSVal → Nat → Result E (List JSVal)
  | [], _ => .success []
  | v :: rest, d =>
    match cloneRecursive maxDepth onDepthExceeded v d with
    | .failure e => .failure e
    | .success c =>
      match cloneElems maxDepth onDepthExceeded rest d with
      | .failure e => .failure e
      | .success cs => .success (c :: cs)

/-- Object branch of `cloneRecursive`: clone each own field's value at the
child depth, failing fast. -/
def cloneObjFields {E : Type} (maxDepth : Nat) (onDepthExceeded : Nat → E) :
    List (String × JSVal) → Nat → Result E (List (String × JSVal))
  | [], _ => .success []
  | kv :: rest, d =>
    match cloneRecursive maxDepth onDepthExceeded kv.2 d with
    | .failure e => .failure e
    | .success c =>
      match cloneObjFields maxDepth onDepthExceeded rest d with
      | .failure e => .failure e
      | .success cs => .success ((kv.1, c) :: cs)

end

/-- Embeds `clone(options, onDepthExceeded)(obj)` from src/object.ts:
`maxDepth = options.maxDepth ?? 10`, then `cloneRecursive(obj, 0)`. -/
def clone {E : Type} (options : CloneOptions) (onDepthExceeded : Nat → E)
    (obj : JSVal) : Result E JSVal :=
  cloneRecursive (options.maxDepth.getD 10) onDepthExceeded obj 0

mutual

/-- Nesting height of a value: 0 for primitives and empty containers,
`1 + max` over the children otherwise; a value at depth `d` clones
successfully iff `d + jsHeight v ≤ maxDepth`. -/
def jsHeight : JSVal → Nat
  | .vArr elems => elemsHeight elems
  | .vObj fields => fieldsHeight fields
  | _ => 0

/-- Height contribution of array elements: `max (jsHeight v + 1)`. -/
def elemsHeight : List JSVal → Nat
  | [] => 0
  | v :: rest => max (jsHeight v + 1) (elemsHeight rest)

/-- Height contribution of object fields: `max (jsHeight value + 1)`. -/
def fieldsHeight : List (String × JSVal) → Nat
  | [] => 0
  | kv :: rest => max (jsHeight kv.2 + 1) (fieldsHeight rest)

end

/-! ### `clone` on possibly-circular heaps (C10)

JavaScript objects live on a heap and may be self-referential, which the
inductive `JSVal` cannot express.  Here values are nodes of an arbitrary —
possibly cyclic — reference graph `Heap = Nat → GNode`, and
`cloneRecG` re-runs `cloneRecursive`'s exact control flow over it.  The
definition is total precisely because of the source's depth guard: every
recursive call passes `currentDepth + 1` and is only reached under
`currentDepth ≤ maxDepth`, so `maxDepth + 1 - depth` (lexicographically
with the remaining sibling count) is a decreasing measure — this
termination argument is the claim's own.  The second result component
instruments the recursion with the maximum `currentDepth` argument over
all `cloneRecursive` calls performed. -/

/-- A heap node: a primitive, an array of references, or an object whose
field values are references. -/
inductive GNode where
  | leaf
  | arr (children : List Nat)
  | obj (fields : List (String × Nat))
deriving Repr

/-- A (possibly circular) JavaScript heap: every reference resolves to a
node. -/
def Heap : Type := Nat → GNode

/-- The tree a successful graph clone produces. -/
inductive CVal where
  | leaf
  | arr (children : List CVal)
  | obj (fields : List (String × CVal))
deriving Repr

mutual

/-- Runs `cloneRecursive` over a possibly-circular heap, instrumented with the
maximum depth argument reached. -/
def cloneRecG {E : Type} (heap : Heap) (maxD : Nat) (f : Nat → E)
    (r : Nat) (depth : Nat) : Result E CVal × Nat :=
  if _hd : maxD < depth then (.failure (f depth), depth)
  else
    match heap r with
    | .leaf => (.success .leaf, depth)
    | .arr cs =>
      let res := cloneListG heap maxD f cs (depth + 1)
      (match res.1 with
       | .failure e => .failure e
       | .success ts => .success (.arr ts), max depth res.2)
    | .obj fs =>
      let res := cloneFieldsG heap maxD f fs (depth + 1)
      (match res.1 with
       | .failure e => .failure e
       | .success ts => .success (.obj ts), max depth res.2)
termination_by (maxD + 1 - depth, 0)

/-- Array branch of the heap clone. -/
def cloneListG {E : Type} (heap : Heap) (maxD : Nat) (f : Nat → E)
    (cs : List Nat) (depth : Nat) : Result E (List CVal) × Nat :=
  match cs with
  | [] => (.success [], 0)
  | c :: rest =>
    let rc := cloneRecG heap maxD f c depth
    match rc.1 with
    | .failure e => (.failure e, rc.2)
    | .success t =>
      let rr := cloneListG heap maxD f rest depth
      (match rr.1 with
       | .failure e => .failure e
       | .success ts => .success (t :: ts), max rc.2 rr.2)
termination_by (maxD + 1 - depth, cs.length + 1)

/-- Object branch of the heap clone. -/
def cloneFieldsG {E : Type} (heap : Heap) (maxD : Nat) (f : Nat → E)
    (fs : List (String × Nat)) (depth : Nat) :
    Result E (List (String × CVal)) × Nat :=
  match fs with
  | [] => (.success [], 0)
  | kv :: rest =>
    let rc := cloneRecG heap maxD f kv.2 depth
    match rc.1 with
    | .failure e => (.failure e, rc.2)
    | .success t =>
      let rr := cloneFieldsG heap maxD f rest depth
      (match rr.1 with
       | .failure e => .failure e
       | .success ts => .success ((kv.1, t) :: ts), max rc.2 rr.2)
termination_by (maxD + 1 - depth, fs.length + 1)

end

/-- Runs `clone` over a heap: start the recursion at depth 0. -/
def cloneG {E : Type} (heap : Heap) (maxD : Nat) (f : Nat → E) (r : Nat) :
    Result E CVal × Nat :=
  cloneRecG heap maxD f r 0

/-- A fully circular heap: every reference is an object whose single field
points back at reference 0. -/
def circHeap : Heap := fun _ => GNode.obj [("self", 0)]

/-! ## Theorems -/

/-- C1 counterexample: the claim asserts `failure(e).map(f)` is not
reference-equal to `failure(e)`; but `Failure.map` is `return this`, so at
the concrete failure object with refId 0 and error "boom" the returned
object has the very same reference id — the claimed reference
distinguishability is false. -/
theorem C1_counterexample :
    ¬ (((FailureObj.mk 0 "boom").mapF (fun n : Nat => n + 1)).1.refId
        ≠ (FailureObj.mk 0 "boom").refId) :=
  fun h => h rfl

/-- C1 (amended): for every error `e` and function `f`, `failure(e).map(f)`
returns the very same Failure object — reference-equal to the original,
with the error unchanged — and `f` is never invoked (invocation count 0). -/
theorem C1_failure_map_identity {E A B : Type} (i : Nat) (e : E) (f : A → B) :
    (FailureObj.mk i e).mapF f = (FailureObj.mk i e, 0) :=
  rfl

/-- C7: on a Failure receiver, `.if(p)` never invokes the predicate (empty
invocation trace, condition false); `.then(cb1)` on the resulting chain
never invokes `cb1`; and `.else(cb2)` invokes `cb2` exactly once with the
stored error and returns the original Failure Result, so later combinators
chain off the original Failure. -/
theorem C7_failure_conditional_chain {E A : Type} (e : E) (p : A → Bool) :
    (Result.failure e).ifChain p
        = (⟨Result.failure e, false⟩, ([] : List A))
    ∧ (⟨Result.failure e, false⟩ : ConditionalChain E A).thenRun
        = (⟨Result.failure e, false⟩, [])
    ∧ (⟨Result.failure e, false⟩ : ConditionalChain E A).elseRun
        = (Result.failure e, [], [e]) :=
  ⟨rfl, rfl, rfl⟩

/-- C8: monadic left identity — `success(a).flatMap(f)` is exactly `f(a)`,
the Result returned by `f`, with no rewrapping. -/
theorem C8_flatMap_left_identity {E A B : Type} (a : A) (f : A → Result E B) :
    (Result.success a).flatMap f = f a :=
  rfl

/-- Helper: `allGo` on a prefix of Successes followed by a Failure returns
that Failure. -/
theorem allGo_first_failure {E A : Type} :
    ∀ (pre : List (Result E A)) (e : E) (post : List (Result E A))
      (acc : List A), (∀ r ∈ pre, r.isFailure = false) →
      allGo (pre ++ .failure e :: post) acc = .failure e := by
  intro pre
  induction pre with
  | nil => intro e post acc _; rfl
  | cons r rest ih =>
    intro e post acc h
    cases r with
    | failure e' =>
      have := h (.failure e') (List.mem_cons_self _ _)
      simp [Result.isFailure] at this
    | success v =>
      have h' : ∀ x ∈ rest, Result.isFailure x = false :=
        fun x hx => h x (List.mem_cons_of_mem _ hx)
      simpa [allGo] using ih e post (acc ++ [v]) h'

/-- Helper: `allGo` on all-Success input appends the values in order. -/
theorem allGo_all_success {E A : Type} :
    ∀ (rs : List (Result E A)) (vs : List A) (acc : List A),
      List.Forall₂ (fun r v => r = .success v) rs vs →
      allGo rs acc = .success (acc ++ vs) := by
  intro rs vs acc h
  induction h generalizing acc with
  | nil => simp [allGo]
  | @cons r v rs' vs' hrv _ ih =>
    subst hrv
    have := ih (acc ++ [v])
    simpa [allGo] using this

/-- C9: `all(results)` returns the first Failure in input order when any
element is a Failure, otherwise a Success holding all the Success values in
input order; `all([])` is `success([])`. -/
theorem C9_all_combines {E A : Type} :
    (all ([] : List (Result E A)) = .success [])
    ∧ (∀ (pre : List (Result E A)) (e : E) (post : List (Result E A)),
        (∀ r ∈ pre, r.isFailure = false) →
        all (pre ++ .failure e :: post) = .failure e)
    ∧ (∀ (rs : List (Result E A)) (vs : List A),
        List.Forall₂ (fun r v => r = .success v) rs vs →
        all rs = .success vs) := by
  refine ⟨rfl, ?_, ?_⟩
  · intro pre e post h
    exact allGo_first_failure pre e post [] h
  · intro rs vs h
    simpa using allGo_all_success rs vs [] h

/-- Witness for C9 at a concrete input: the failure in the middle of the
list is returned, short-circuiting. -/
theorem C9_all_combines_witness :
    all [Result.success (1 : Nat), Result.failure "e", Result.success 2]
      = .failure "e" :=
  (C9_all_combines).2.1 [Result.success 1] "e" [Result.success 2] (by decide)

/-- Helper: `mapGo` on a prefix of elements `fn` succeeds on, followed by a
failing element, returns that Failure; the invocation trace is exactly the
prefix plus the failing element. -/
theorem mapGo_first_failure {E A B : Type} [Inhabited B] (fn : A → Result E B) :
    ∀ (pre : List A) (x : A) (post : List A) (e : E)
      (acc : List (Result E B)),
      (∀ y ∈ pre, (fn y).isFailure = false) → fn x = .failure e →
      mapGo fn (pre ++ x :: post) acc = (.failure e, pre ++ [x]) := by
  intro pre
  induction pre with
  | nil =>
    intro x post e acc _ hx
    simp [mapGo, hx]
  | cons y rest ih =>
    intro x post e acc h hx
    have hy := h y (List.mem_cons_self _ _)
    cases hfy : fn y with
    | failure e' => simp [hfy, Result.isFailure] at hy
    | success v =>
      have h' : ∀ z ∈ rest, (fn z).isFailure = false :=
        fun z hz => h z (List.mem_cons_of_mem _ hz)
      have := ih x post e (acc ++ [.success v]) h' hx
      simp [mapGo, hfy, this]

/-- Helper: `mapGo` on elements `fn` maps to Successes returns the Success
values (after the accumulated ones) in order; the invocation trace is the
whole input. -/
theorem mapGo_all_success {E A B : Type} [Inhabited B] (fn : A → Result E B) :
    ∀ (arr : List A) (vs : List B) (acc : List (Result E B)),
      List.Forall₂ (fun a v => fn a = .success v) arr vs →
      mapGo fn arr acc = (.success (acc.map getValueD ++ vs), arr) := by
  intro arr vs acc h
  induction h generalizing acc with
  | nil => simp [mapGo]
  | @cons a v arr' vs' hav _ ih =>
    have := ih (acc ++ [.success v])
    simp [mapGo, hav, this, getValueD]

/-- C3: array `map(fn)(arr)` applies `fn` to elements in input order; when
`fn` fails first at element `x` (all earlier applications succeeding), that
Failure is the overall Result and the invocation trace stops at `x` — `fn`
is never invoked past it; when every application succeeds, the result is
success of the unwrapped values in input order and `fn` was invoked on
exactly the whole input in order. -/
theorem C3_map_fail_fast {E A B : Type} [Inhabited B] (fn : A → Result E B) :
    (∀ (pre : List A) (x : A) (post : List A) (e : E),
        (∀ y ∈ pre, (fn y).isFailure = false) → fn x = .failure e →
        mapTr fn (pre ++ x :: post) = (.failure e, pre ++ [x]))
    ∧ (∀ (arr : List A) (vs : List B),
        List.Forall₂ (fun a v => fn a = .success v) arr vs →
        mapTr fn arr = (.success vs, arr)) := by
  constructor
  · intro pre x post e h hx
    exact mapGo_first_failure fn pre x post e [] h hx
  · intro arr vs h
    simpa [mapTr] using mapGo_all_success fn arr vs [] h

/-- Witness for C3 at a concrete input: `fn` fails on the middle element,
the failure is returned, and `fn` is not invoked on the last element. -/
theorem C3_map_fail_fast_witness :
    mapTr (fun n : Nat => if n = 2 then Result.failure "bad" else Result.success n)
        [1, 2, 3]
      = (.failure "bad", [1, 2]) :=
  (C3_map_fail_fast _).1 [1] 2 [3] "bad" (by decide) (by decide)

/-- C2 counterexample: the claim says `pick` fails on a key whose value is
strictly `undefined` even when the key exists, and `getPath` fails when the
final path segment's value is strictly `undefined`.  On the concrete object
with key "a" present but `undefined`, `pick(["a"])` succeeds (the source
checks only `key in obj`) and `getPath(["a"])` succeeds with `undefined`
(the source never tests the final value). -/
theorem C2_counterexample :
    (pick ["a"] (fun k => k) [("a", JSVal.vUndefined)]).isFailure = false
    ∧ pick ["a"] (fun k => k) [("a", JSVal.vUndefined)]
        = .success [("a", JSVal.vUndefined)]
    ∧ (getPath ["a"] (fun p => p) (JSVal.vObj [("a", JSVal.vUndefined)])).isFailure
        = false
    ∧ getPath ["a"] (fun p => p) (JSVal.vObj [("a", JSVal.vUndefined)])
        = .success JSVal.vUndefined :=
  ⟨rfl, rfl, rfl, rfl⟩

/-- Helper: `pickGo` returns the first requested key absent from the
object, or folds the present keys into the accumulator in order. -/
theorem pickGo_characterization {E : Type} (m : String → E)
    (obj : List (String × JSVal)) :
    ∀ (keys : List String) (acc : List (String × JSVal)),
      pickGo m obj keys acc =
        match keys.find? (fun k => !(hasKey obj k)) with
        | some k => .failure (m k)
        | none =>
          .success (keys.foldl (fun a k => jsInsert a k (getKey obj k)) acc) := by
  intro keys
  induction keys with
  | nil => intro acc; rfl
  | cons k ks ih =>
    intro acc
    cases h : hasKey obj k with
    | true => simp [pickGo, h, List.find?_cons, ih]
    | false => simp [pickGo, h, List.find?_cons]

/-- Helper: on traversals whose tested receivers are plain objects or
null/undefined (the region where the embedded membership test agrees with
the program — elsewhere the real `in` throws or sees array own
properties), `getPathGo` fails with the joined path exactly when the
traversal misses, and otherwise succeeds with the walked value. -/
theorem getPathGo_characterization {E : Type} (path : List String)
    (m : String → E) :
    ∀ (rest : List String) (v : JSVal), objPathSteps rest v = true →
      getPathGo path m v rest =
        if pathMissing rest v then
          .failure (m (String.intercalate "." path))
        else
          .success (walkPath rest v) := by
  intro rest
  induction rest with
  | nil => intro v _; rfl
  | cons seg segs ih =>
    intro v hg
    cases v with
    | vNull => simp [getPathGo, pathMissing, JSVal.isNull]
    | vUndefined => simp [getPathGo, pathMissing, JSVal.isUndef]
    | vObj fields =>
      by_cases hk : hasKey fields seg
      · have hg' : objPathSteps segs (getKey fields seg) = true := by
          simpa [objPathSteps, hk] using hg
        simp [getPathGo, pathMissing, walkPath, segMem, segGet,
          JSVal.isNull, JSVal.isUndef, hk, ih _ hg']
      · simp [getPathGo, pathMissing, segMem, JSVal.isNull, JSVal.isUndef, hk]
    | vBool b => simp [objPathSteps] at hg
    | vNum n => simp [objPathSteps] at hg
    | vStr s => simp [objPathSteps] at hg
    | vFunc r => simp [objPathSteps] at hg
    | vArr elems => simp [objPathSteps] at hg

/-- C2 (amended): `prop` fails exactly when the key is absent or its value
is strictly `undefined` (a `null` value is present and succeeds); `pick`
fails exactly when some requested key is absent, with the error built from
the first absent key in order — a present key whose value is `undefined`
is copied successfully; `getPath`, on traversals whose tested intermediate
values are plain objects or null/undefined (`objPathSteps` — outside that
region the program throws a TypeError on primitive receivers of `in`, and
array own-property structure is beyond this claim), fails exactly when,
walking the path, the current value is null or undefined or lacks the next
segment, and otherwise succeeds with the walked value — even when that
final value is strictly `undefined`. -/
theorem C2_object_operators {E : Type} :
    (∀ (k : String) (m : Unit → E) (obj : List (String × JSVal)),
        prop k m obj =
          if hasKey obj k && !(getKey obj k).isUndef then
            .success (getKey obj k)
          else
            .failure (m ()))
    ∧ (∀ (m : Unit → E), prop "a" m [("a", JSVal.vNull)] = .success JSVal.vNull)
    ∧ (∀ (keys : List String) (m : String → E) (obj : List (String × JSVal)),
        pick keys m obj =
          match keys.find? (fun k => !(hasKey obj k)) with
          | some k => .failure (m k)
          | none =>
            .success (keys.foldl (fun a k => jsInsert a k (getKey obj k)) []))
    ∧ (∀ (path : List String) (m : String → E) (obj : JSVal),
        objPathSteps path obj = true →
        getPath path m obj =
          if pathMissing path obj then
            .failure (m (String.intercalate "." path))
          else
            .success (walkPath path obj)) := by
  refine ⟨?_, ?_, ?_, ?_⟩
  · intro k m obj
    unfold prop
    cases h1 : hasKey obj k <;> cases h2 : (getKey obj k).isUndef <;>
      simp [h1, h2]
  · intro m
    rfl
  · intro keys m obj
    exact pickGo_characterization m obj keys []
  · intro path m obj hg
    exact getPathGo_characterization path m path obj hg

/-- Witness for C2 at a concrete input: a two-segment object-only
traversal satisfies the guard, and `getPath` succeeds with the stored
`null` (null treated as present). -/
theorem C2_object_operators_witness :
    objPathSteps ["a", "b"]
        (JSVal.vObj [("a", JSVal.vObj [("b", JSVal.vNull)])]) = true
    ∧ getPath ["a", "b"] (fun p => p)
        (JSVal.vObj [("a", JSVal.vObj [("b", JSVal.vNull)])])
      = .success JSVal.vNull := by
  constructor
  · rfl
  · have h := (C2_object_operators (E := String)).2.2.2 ["a", "b"]
      (fun p => p) (JSVal.vObj [("a", JSVal.vObj [("b", JSVal.vNull)])]) rfl
    rw [h]
    rfl

/-- Helper: `Success.match` returns the handler result of the first
pattern (in array order) applicable to the value, and throws when none is. -/
theorem successMatch_eq_find {E R : Type} (value : JSVal) :
    ∀ ps : List (Pattern E R),
      successMatch value ps =
        match ps.find? (appliesToSuccess value) with
        | some p =>
          match applyToSuccess value p with
          | some r => .ok r
          | none => .error "No matching pattern found"
        | none => .error "No matching pattern found" := by
  intro ps
  induction ps with
  | nil => rfl
  | cons p rest ih =>
    cases p with
    | basicSuccess h =>
      simp [successMatch, List.find?_cons, appliesToSuccess, applyToSuccess]
    | guardPat g h =>
      cases hg : g value with
      | true =>
        simp [successMatch, List.find?_cons, appliesToSuccess, hg,
          applyToSuccess]
      | false =>
        simp [successMatch, List.find?_cons, appliesToSuccess, hg, ih]
    | destructurePat d h =>
      cases hd : matchesDestructuring d value with
      | true =>
        simp [successMatch, List.find?_cons, appliesToSuccess, hd,
          applyToSuccess]
      | false =>
        simp [successMatch, List.find?_cons, appliesToSuccess, hd, ih]
    | failurePat h =>
      simp [successMatch, List.find?_cons, appliesToSuccess, ih]

/-- Helper: `Failure.match` returns the handler of the first
`[failure, handler]` tuple applied to the error, and throws when there is
none. -/
theorem failureMatch_eq_find {E R : Type} (err : E) :
    ∀ ps : List (Pattern E R),
      failureMatch err ps =
        match ps.find? isFailurePat with
        | some (.failurePat h) => .ok (h err)
        | _ => .error "No matching failure pattern found" := by
  intro ps
  induction ps with
  | nil => rfl
  | cons p rest ih =>
    cases p with
    | basicSuccess h => simpa [failureMatch, List.find?_cons, isFailurePat] using ih
    | guardPat g h => simpa [failureMatch, List.find?_cons, isFailurePat] using ih
    | destructurePat d h =>
      simpa [failureMatch, List.find?_cons, isFailurePat] using ih
    | failurePat h => simp [failureMatch, List.find?_cons, isFailurePat]

/-- C4: `.match()` evaluates patterns in array order.  On a Success
receiver the first applicable pattern — failure tuples never apply, a
destructuring pattern applies iff every key is shallowly `===`-equal on the
value, a guard pattern applies iff the guard is truthy, a basic success
pattern always applies — supplies the result, via its handler on the
value; when the first pattern already applies, the outcome ignores every
later pattern.  On a Failure receiver, the first `[failure, handler]`
tuple's handler receives the error. -/
theorem C4_match_first_pattern_wins {E R : Type} :
    (∀ (value : JSVal) (ps : List (Pattern E R)),
        successMatch value ps =
          match ps.find? (appliesToSuccess value) with
          | some p =>
            match applyToSuccess value p with
            | some r => .ok r
            | none => .error "No matching pattern found"
          | none => .error "No matching pattern found")
    ∧ (∀ (value : JSVal) (p₁ p₂ : Pattern E R) (ps : List (Pattern E R)),
        appliesToSuccess value p₁ = true →
        successMatch value (p₁ :: p₂ :: ps) = successMatch value [p₁])
    ∧ (∀ (err : E) (ps : List (Pattern E R)),
        failureMatch err ps =
          match ps.find? isFailurePat with
          | some (.failurePat h) => .ok (h err)
          | _ => .error "No matching failure pattern found") := by
  refine ⟨successMatch_eq_find, ?_, failureMatch_eq_find⟩
  intro value p₁ p₂ ps h
  rw [successMatch_eq_find, successMatch_eq_find]
  simp [List.find?_cons, h]

/-- Witness for C4 at a concrete input: with two basic success patterns,
only the first pattern's handler determines the outcome. -/
theorem C4_match_first_pattern_wins_witness :
    appliesToSuccess (E := String) (R := Nat) (JSVal.vNum 1)
        (Pattern.basicSuccess (fun _ => 10)) = true
    ∧ successMatch (JSVal.vNum 1)
        [Pattern.basicSuccess (E := String) (fun _ => (10 : Nat)),
         Pattern.basicSuccess (fun _ => 20)]
      = successMatch (JSVal.vNum 1)
          [Pattern.basicSuccess (E := String) (fun _ => (10 : Nat))] :=
  ⟨rfl,
    (C4_match_first_pattern_wins).2.1 (JSVal.vNum 1)
      (Pattern.basicSuccess (fun _ => 10)) (Pattern.basicSuccess (fun _ => 20))
      [] rfl⟩

/-- C5: on a Success receiver `.match()` throws exactly the message "No
matching pattern found", and does so exactly when no pattern applies; on a
Failure receiver it throws exactly "No matching failure pattern found",
exactly when the list has no `[failure, handler]` tuple.  These
characterizations are iffs: the match engine throws in no other case. -/
theorem C5_match_throws {E R : Type} :
    (∀ (value : JSVal) (ps : List (Pattern E R)) (msg : String),
        successMatch value ps = .error msg ↔
          (msg = "No matching pattern found"
            ∧ ∀ p ∈ ps, appliesToSuccess value p = false))
    ∧ (∀ (err : E) (ps : List (Pattern E R)) (msg : String),
        failureMatch err ps = .error msg ↔
          (msg = "No matching failure pattern found"
            ∧ ∀ p ∈ ps, isFailurePat p = false)) := by
  constructor
  · intro value ps msg
    rw [successMatch_eq_find value ps]
    cases hf : ps.find? (appliesToSuccess value) with
    | none =>
      have hall := List.find?_eq_none.mp hf
      constructor
      · intro h
        cases h
        exact ⟨rfl, fun p hp => Bool.not_eq_true _ ▸ by
          simpa using hall p hp⟩
      · intro ⟨h1, _⟩
        cases h1
        rfl
    | some p =>
      have happ : appliesToSuccess value p = true := List.find?_some hf
      have hmem : p ∈ ps := List.mem_of_find?_eq_some hf
      have : ∃ r, applyToSuccess value p = some r := by
        cases p with
        | basicSuccess h => exact ⟨h value, rfl⟩
        | guardPat g h => exact ⟨h value, rfl⟩
        | destructurePat d h => exact ⟨h value, rfl⟩
        | failurePat h => simp [appliesToSuccess] at happ
      obtain ⟨r, hr⟩ := this
      simp only [hr]
      constructor
      · intro h
        simp at h
      · intro ⟨_, hall⟩
        have := hall p hmem
        rw [this] at happ
        cases happ
  · intro err ps msg
    rw [failureMatch_eq_find err ps]
    cases hf : ps.find? isFailurePat with
    | none =>
      have hall := List.find?_eq_none.mp hf
      constructor
      · intro h
        cases h
        exact ⟨rfl, fun p hp => by simpa using hall p hp⟩
      · intro ⟨h1, _⟩
        cases h1
        rfl
    | some p =>
      have happ : isFailurePat p = true := List.find?_some hf
      have hmem : p ∈ ps := List.mem_of_find?_eq_some hf
      cases p with
      | basicSuccess h => simp [isFailurePat] at happ
      | guardPat g h => simp [isFailurePat] at happ
      | destructurePat d h => simp [isFailurePat] at happ
      | failurePat h =>
        constructor
        · intro hcontra
          simp at hcontra
        · intro ⟨_, hall⟩
          have := hall _ hmem
          simp [isFailurePat] at this

/-- Witness for C5 at a concrete input: the empty pattern list throws the
Success-side message. -/
theorem C5_match_throws_witness :
    successMatch (E := String) (R := Nat) (JSVal.vNum 1) []
      = .error "No matching pattern found" :=
  ((C5_match_throws).1 (JSVal.vNum 1) [] "No matching pattern found").mpr
    ⟨rfl, by simp⟩

mutual

/-- Helper: `cloneRecursive` at depth `d` returns the value unchanged when
`d + jsHeight v ≤ maxD`, and fails with `onDepthExceeded (maxD + 1)` when
the height exceeds the budget (for any start depth `d ≤ maxD + 1`). -/
theorem cloneRec_spec {E : Type} (maxD : Nat) (f : Nat → E) (v : JSVal)
    (d : Nat) :
    (d + jsHeight v ≤ maxD → cloneRecursive maxD f v d = .success v)
    ∧ (d ≤ maxD + 1 → maxD < d + jsHeight v →
        cloneRecursive maxD f v d = .failure (f (maxD + 1))) := by
  constructor
  · intro h
    have hd : ¬ (d > maxD) := by omega
    cases v with
    | vArr elems =>
      have hh : jsHeight (JSVal.vArr elems) = elemsHeight elems := rfl
      have hc := (cloneElems_spec maxD f elems (d + 1)).1 (by omega)
      simp [cloneRecursive, hd, hc]
    | vObj fields =>
      have hh : jsHeight (JSVal.vObj fields) = fieldsHeight fields := rfl
      have hc := (cloneObjFields_spec maxD f fields (d + 1)).1 (by omega)
      simp [cloneRecursive, hd, hc]
    | vUndefined => simp [cloneRecursive, hd]
    | vNull => simp [cloneRecursive, hd]
    | vBool b => simp [cloneRecursive, hd]
    | vNum n => simp [cloneRecursive, hd]
    | vStr s => simp [cloneRecursive, hd]
    | vFunc r => simp [cloneRecursive, hd]
  · intro hd1 hd2
    by_cases hgt : maxD < d
    · have hde : d = maxD + 1 := by omega
      subst hde
      cases v <;> simp [cloneRecursive, hgt]
    · have hd : ¬ (d > maxD) := hgt
      cases v with
      | vArr elems =>
        have hh : jsHeight (JSVal.vArr elems) = elemsHeight elems := rfl
        rw [hh] at hd2
        have hc := (cloneElems_spec maxD f elems (d + 1)).2 (by omega)
          (by omega)
        simp [cloneRecursive, hd, hc]
      | vObj fields =>
        have hh : jsHeight (JSVal.vObj fields) = fieldsHeight fields := rfl
        rw [hh] at hd2
        have hc := (cloneObjFields_spec maxD f fields (d + 1)).2 (by omega)
          (by omega)
        simp [cloneRecursive, hd, hc]
      | vUndefined => simp [jsHeight] at hd2; omega
      | vNull => simp [jsHeight] at hd2; omega
      | vBool b => simp [jsHeight] at hd2; omega
      | vNum n => simp [jsHeight] at hd2; omega
      | vStr s => simp [jsHeight] at hd2; omega
      | vFunc r => simp [jsHeight] at hd2; omega

/-- Helper: array-element clone loop: succeeds returning the elements
unchanged when every element's height fits the budget, fails with
`onDepthExceeded (maxD + 1)` otherwise. -/
theorem cloneElems_spec {E : Type} (maxD : Nat) (f : Nat → E)
    (l : List JSVal) (d : Nat) :
    (d + elemsHeight l ≤ maxD + 1 → cloneElems maxD f l d = .success l)
    ∧ (d ≤ maxD + 1 → maxD + 1 < d + elemsHeight l →
        cloneElems maxD f l d = .failure (f (maxD + 1))) := by
  constructor
  · intro h
    cases l with
    | nil => rfl
    | cons v rest =>
      have hh : elemsHeight (v :: rest)
          = max (jsHeight v + 1) (elemsHeight rest) := rfl
      rw [hh] at h
      have hv := (cloneRec_spec maxD f v d).1 (by omega)
      have hr := (cloneElems_spec maxD f rest d).1 (by omega)
      simp [cloneElems, hv, hr]
  · intro hd1 h2
    cases l with
    | nil => simp [elemsHeight] at h2; omega
    | cons v rest =>
      have hh : elemsHeight (v :: rest)
          = max (jsHeight v + 1) (elemsHeight rest) := rfl
      rw [hh] at h2
      by_cases hc : maxD < d + jsHeight v
      · have hv := (cloneRec_spec maxD f v d).2 hd1 hc
        simp [cloneElems, hv]
      · have hv := (cloneRec_spec maxD f v d).1 (by omega)
        have hr := (cloneElems_spec maxD f rest d).2 hd1 (by omega)
        simp [cloneElems, hv, hr]

/-- Helper: object-field clone loop, analogous to the array loop. -/
theorem cloneObjFields_spec {E : Type} (maxD : Nat) (f : Nat → E)
    (fs : List (String × JSVal)) (d : Nat) :
    (d + fieldsHeight fs ≤ maxD + 1 → cloneObjFields maxD f fs d = .success fs)
    ∧ (d ≤ maxD + 1 → maxD + 1 < d + fieldsHeight fs →
        cloneObjFields maxD f fs d = .failure (f (maxD + 1))) := by
  constructor
  · intro h
    cases fs with
    | nil => rfl
    | cons kv rest =>
      have hh : fieldsHeight (kv :: rest)
          = max (jsHeight kv.2 + 1) (fieldsHeight rest) := rfl
      rw [hh] at h
      have hv := (cloneRec_spec maxD f kv.2 d).1 (by omega)
      have hr := (cloneObjFields_spec maxD f rest d).1 (by omega)
      simp [cloneObjFields, hv, hr]
  · intro hd1 h2
    cases fs with
    | nil => simp [fieldsHeight] at h2; omega
    | cons kv rest =>
      have hh : fieldsHeight (kv :: rest)
          = max (jsHeight kv.2 + 1) (fieldsHeight rest) := rfl
      rw [hh] at h2
      by_cases hc : maxD < d + jsHeight kv.2
      · have hv := (cloneRec_spec maxD f kv.2 d).2 hd1 hc
        simp [cloneObjFields, hv]
      · have hv := (cloneRec_spec maxD f kv.2 d).1 (by omega)
        have hr := (cloneObjFields_spec maxD f rest d).2 hd1 (by omega)
        simp [cloneObjFields, hv, hr]

end

/-- C6: `clone` returns a Success holding a structurally equal deep copy
whenever the nesting height fits within `maxDepth` (explicitly given, or
defaulting to 10), and otherwise a Failure carrying `onDepthExceeded`
applied to the first offending depth `maxDepth + 1`; concretely,
`clone({maxDepth: 1}, d => 'too deep ' + d)({a: {b: {c: 1}}})` is
`failure("too deep 2")`. -/
theorem C6_clone_depth {E : Type} (maxD : Nat) (f : Nat → E) (v : JSVal) :
    (jsHeight v ≤ maxD →
        clone ⟨some maxD, false⟩ f v = .success v)
    ∧ (maxD < jsHeight v →
        clone ⟨some maxD, false⟩ f v = .failure (f (maxD + 1)))
    ∧ (jsHeight v ≤ 10 → clone ⟨none, false⟩ f v = .success v)
    ∧ (10 < jsHeight v → clone ⟨none, false⟩ f v = .failure (f 11))
    ∧ clone ⟨some 1, false⟩ (fun d => "too deep " ++ toString d)
          (JSVal.vObj [("a", JSVal.vObj [("b", JSVal.vObj [("c", JSVal.vNum 1)])])])
        = .failure "too deep 2" := by
  refine ⟨?_, ?_, ?_, ?_, ?_⟩
  · intro h
    exact (cloneRec_spec maxD f v 0).1 (by omega)
  · intro h
    exact (cloneRec_spec maxD f v 0).2 (by omega) (by omega)
  · intro h
    exact (cloneRec_spec 10 f v 0).1 (by omega)
  · intro h
    exact (cloneRec_spec 10 f v 0).2 (by omega) (by omega)
  · have hh : jsHeight
        (JSVal.vObj [("a", JSVal.vObj [("b", JSVal.vObj [("c", JSVal.vNum 1)])])])
        = 3 := by
      simp [jsHeight, fieldsHeight]
    have := (cloneRec_spec 1 (fun d => "too deep " ++ toString d)
        (JSVal.vObj [("a", JSVal.vObj [("b", JSVal.vObj [("c", JSVal.vNum 1)])])])
        0).2 (by omega) (by rw [hh]; omega)
    exact this

/-- Witness for C6 at a concrete input: a flat object is within the
default depth budget and is cloned successfully. -/
theorem C6_clone_depth_witness :
    jsHeight (JSVal.vObj [("a", JSVal.vNum 7)]) ≤ 5
    ∧ clone ⟨some 5, false⟩ (fun d => toString d)
          (JSVal.vObj [("a", JSVal.vNum 7)])
        = .success (JSVal.vObj [("a", JSVal.vNum 7)]) :=
  ⟨by simp [jsHeight, fieldsHeight],
    (C6_clone_depth 5 (fun d => toString d) (JSVal.vObj [("a", JSVal.vNum 7)])).1
      (by simp [jsHeight, fieldsHeight])⟩

/-- Helper: any heap-clone call whose depth exceeds `maxD` returns
immediately with a Failure carrying that depth, performing no further
recursion. -/
theorem cloneRecG_depth_exceeded {E : Type} (heap : Heap) (maxD : Nat)
    (f : Nat → E) (r d : Nat) (h : maxD < d) :
    cloneRecG heap maxD f r d = (.failure (f d), d) := by
  rw [cloneRecG]
  simp [h]

/-- Helper: over any heap — circular or not — every heap-clone call
started at a depth within the budget only ever reaches depth arguments
bounded by `maxD + 1` (proved by induction on the remaining depth budget,
the same measure that makes the recursion terminate). -/
theorem cloneG_bound_aux {E : Type} (heap : Heap) (maxD : Nat) (f : Nat → E) :
    ∀ F : Nat,
      (∀ r d : Nat, maxD + 1 ≤ d + F → d ≤ maxD + 1 →
          (cloneRecG heap maxD f r d).2 ≤ maxD + 1)
      ∧ (∀ (cs : List Nat) (d : Nat), maxD + 1 ≤ d + F → d ≤ maxD + 1 →
          (cloneListG heap maxD f cs d).2 ≤ maxD + 1)
      ∧ (∀ (fs : List (String × Nat)) (d : Nat),
          maxD + 1 ≤ d + F → d ≤ maxD + 1 →
          (cloneFieldsG heap maxD f fs d).2 ≤ maxD + 1) := by
  intro F
  induction F with
  | zero =>
    have hnode : ∀ r d : Nat, maxD + 1 ≤ d + 0 → d ≤ maxD + 1 →
        (cloneRecG heap maxD f r d).2 ≤ maxD + 1 := by
      intro r d h1 h2
      rw [cloneRecG_depth_exceeded heap maxD f r d (by omega)]
      exact h2
    refine ⟨hnode, ?_, ?_⟩
    · intro cs d h1 h2
      cases cs with
      | nil => rw [cloneListG]; exact Nat.zero_le _
      | cons c rest =>
        rw [cloneListG]
        rw [cloneRecG_depth_exceeded heap maxD f c d (by omega)]
        exact h2
    · intro fs d h1 h2
      cases fs with
      | nil => rw [cloneFieldsG]; exact Nat.zero_le _
      | cons kv rest =>
        rw [cloneFieldsG]
        rw [cloneRecG_depth_exceeded heap maxD f kv.2 d (by omega)]
        exact h2
  | succ F ih =>
    obtain ⟨ihn, ihl, ihf⟩ := ih
    have hnode : ∀ r d : Nat, maxD + 1 ≤ d + (F + 1) → d ≤ maxD + 1 →
        (cloneRecG heap maxD f r d).2 ≤ maxD + 1 := by
      intro r d h1 h2
      by_cases hgt : maxD < d
      · rw [cloneRecG_depth_exceeded heap maxD f r d hgt]
        exact h2
      · rw [cloneRecG]
        rw [dif_neg hgt]
        cases hr : heap r with
        | leaf => simpa using h2
        | arr cs =>
          have hl := ihl cs (d + 1) (by omega) (by omega)
          simpa using Nat.max_le.mpr ⟨by omega, hl⟩
        | obj fs =>
          have hl := ihf fs (d + 1) (by omega) (by omega)
          simpa using Nat.max_le.mpr ⟨by omega, hl⟩
    refine ⟨hnode, ?_, ?_⟩
    · intro cs d h1 h2
      induction cs with
      | nil => rw [cloneListG]; exact Nat.zero_le _
      | cons c rest ihrest =>
        rw [cloneListG]
        have hc := hnode c d h1 h2
        cases hcr : (cloneRecG heap maxD f c d).1 with
        | failure e => simpa using hc
        | success t => simpa using Nat.max_le.mpr ⟨hc, ihrest⟩
    · intro fs d h1 h2
      induction fs with
      | nil => rw [cloneFieldsG]; exact Nat.zero_le _
      | cons kv rest ihrest =>
        rw [cloneFieldsG]
        have hc := hnode kv.2 d h1 h2
        cases hcr : (cloneRecG heap maxD f kv.2 d).1 with
        | failure e => simpa using hc
        | success t => simpa using Nat.max_le.mpr ⟨hc, ihrest⟩

/-- Helper: on the fully circular heap the clone dives one level per call
and stops with `onDepthExceeded (maxD + 1)` — it terminates despite the
cycle. -/
theorem cloneG_circ_aux {E : Type} (maxD : Nat) (f : Nat → E) :
    ∀ F d : Nat, maxD + 1 ≤ d + F → d ≤ maxD + 1 →
      cloneRecG circHeap maxD f 0 d = (.failure (f (maxD + 1)), maxD + 1) := by
  intro F
  induction F with
  | zero =>
    intro d h1 h2
    have hde : d = maxD + 1 := by omega
    subst hde
    exact cloneRecG_depth_exceeded circHeap maxD f 0 _ (by omega)
  | succ F ih =>
    intro d h1 h2
    by_cases hgt : maxD < d
    · have hde : d = maxD + 1 := by omega
      subst hde
      exact cloneRecG_depth_exceeded circHeap maxD f 0 _ (by omega)
    · rw [cloneRecG]
      rw [dif_neg hgt]
      have hih := ih (d + 1) (by omega) (by omega)
      have hmax : max d (maxD + 1) = maxD + 1 := by omega
      simp [circHeap, cloneFieldsG, hih, hmax]

/-- C10: `cloneRecursive` terminates on every input, including circular
heaps: the Lean model `cloneRecG` is a total function whose termination
measure is the claim's own argument (each recursive call increases the
depth counter by exactly 1 and is only made while `depth ≤ maxDepth`).
Moreover (i) any call whose depth exceeds `maxDepth` returns immediately
with a Failure carrying that depth, (ii) the depth counter never exceeds
`maxDepth + 1` over the whole recursion, from any start depth within the
budget and in particular from the top-level start at 0, and (iii) on the
fully circular heap `clone` returns `failure(onDepthExceeded(maxDepth+1))`
rather than looping forever. -/
theorem C10_clone_terminates {E : Type} (heap : Heap) (maxD : Nat)
    (f : Nat → E) :
    (∀ r d : Nat, maxD < d →
        cloneRecG heap maxD f r d = (.failure (f d), d))
    ∧ (∀ r d : Nat, d ≤ maxD + 1 → (cloneRecG heap maxD f r d).2 ≤ maxD + 1)
    ∧ (∀ r : Nat, (cloneG heap maxD f r).2 ≤ maxD + 1)
    ∧ cloneG circHeap maxD f 0 = (.failure (f (maxD + 1)), maxD + 1) := by
  refine ⟨fun r d h => cloneRecG_depth_exceeded heap maxD f r d h, ?_, ?_, ?_⟩
  · intro r d h
    exact (cloneG_bound_aux heap maxD f (maxD + 1)).1 r d (by omega) h
  · intro r
    exact (cloneG_bound_aux heap maxD f (maxD + 1)).1 r 0 (by omega) (by omega)
  · exact cloneG_circ_aux maxD f (maxD + 1) 0 (by omega) (by omega)

/-- Witness for C10 at a concrete input: starting within the budget on the
circular heap, the maximum depth reached is bounded by `maxDepth + 1`. -/
theorem C10_clone_terminates_witness :
    (0 : Nat) ≤ 3 + 1
    ∧ (cloneRecG circHeap 3 (fun d => d) 0 0).2 ≤ 3 + 1 :=
  ⟨by omega, (C10_clone_terminates circHeap 3 (fun d => d)).2.1 0 0 (by omega)⟩

end SeikenFx
